import Mathlib

/-!
# Verification of the airtable-plus configuration-merge and batch engine

Shallow embedding of `lib/AirtablePlus.js` (the batching version of the
library: `_mergeConfig`, `_chunkData`, `_handleBatch`, `create`, `read`,
`upsert`, `_formatColumnFilter`, and the constructor).  JavaScript objects
holding configuration are modelled as records whose fields are `Option JVal`
(`none` = property absent, `some v` = property present with value `v`), so
that property-presence, `{...a, ...b}` spread semantics, strict equality and
truthiness are all explicit.  Stateful parts (the module-global
`Airtable.apiKey` and the minting of fresh base handles by `Airtable.base`)
are modelled by explicit state passing through `GState`; minting is given a
serial number so that "a new handle object" is distinguishable from a reused
one, reflecting JS reference identity.
-/

namespace AirtablePlus

/-- JavaScript runtime values that can appear in a configuration object or a
data object in this library: `undefined`, strings, booleans, numbers,
functions (identified by an opaque tag so equality stays decidable), and the
connection-handle objects returned by `Airtable.base(baseID)`.  A handle
records the value it was constructed from (`.getId()` returns it) and a
serial number modelling JS object identity: every call to `Airtable.base`
yields a new object, hence a fresh serial. -/
inductive JVal where
  | undef
  | str (s : String)
  | bool (b : Bool)
  | num (n : Int)
  | fn (tag : Nat)
  | handle (bound : JVal) (serial : Nat)
deriving DecidableEq, Repr

/-- JavaScript truthiness of a `JVal` (`undefined`, `""`, `false` and `0` are
falsy; functions and objects are truthy). -/
def jsTruthy : JVal → Bool
  | .undef => false
  | .str s => !(s == "")
  | .bool b => b
  | .num n => !(n == 0)
  | .fn _ => true
  | .handle _ _ => true

/-- Reading a property: an absent property reads as `undefined` in JS. -/
def getProp : Option JVal → JVal
  | some v => v
  | none => JVal.undef

/-- The `typeof x === "function"` test used on `config.transform`
(line `if(typeof config.transform !== "function") ...`). -/
def isFn : Option JVal → Bool
  | some (.fn _) => true
  | _ => false

/-- The `.getId()` accessor of a connection handle (the airtable SDK base
object remembers the id it was created with).  Only ever applied to handle
values in the library. -/
def getIdOf : JVal → JVal
  | .handle b _ => b
  | _ => JVal.undef

/-- A configuration object.  One `Option JVal` slot per property name the
library reads or writes: `none` models an absent property, `some v` a
property present with value `v` (which may itself be `JVal.undef`, as
JavaScript distinguishes a property set to `undefined` from a missing
property under spread). -/
structure Obj where
  apiKey : Option JVal
  baseID : Option JVal
  tableName : Option JVal
  camelCase : Option JVal
  complex : Option JVal
  concurrency : Option JVal
  typecast : Option JVal
  transform : Option JVal
  base : Option JVal
deriving DecidableEq, Repr

/-- The object literal `{}`. -/
def emptyObj : Obj := ⟨none, none, none, none, none, none, none, none, none⟩

/-- Property-wise resolution of `{...a, ...b}`: the result has `b`'s value
when the property is present in `b` (even when that value is `undefined`),
else `a`'s. -/
def propOr (over dflt : Option JVal) : Option JVal :=
  match over with
  | some v => some v
  | none => dflt

/-- Object spread `{...a, ...b}` restricted to the nine properties the
library touches. -/
def spread (a b : Obj) : Obj :=
  ⟨propOr b.apiKey a.apiKey, propOr b.baseID a.baseID,
   propOr b.tableName a.tableName, propOr b.camelCase a.camelCase,
   propOr b.complex a.complex, propOr b.concurrency a.concurrency,
   propOr b.typecast a.typecast, propOr b.transform a.transform,
   propOr b.base a.base⟩

/-- Mutable process-wide state touched by `_mergeConfig`: the module-global
`Airtable.apiKey` (initially `undefined`) and a counter supplying the serial
of the next handle object minted by `Airtable.base`. -/
structure GState where
  airtableKey : JVal
  fresh : Nat
deriving DecidableEq, Repr

/-- The transform normalization `_mergeConfig` performs on an object
argument: `if(typeof config.transform !== "function") config.transform =
undefined;` — note this is a write to the caller's own object, and it sets
the property (to `undefined`) even when it was absent. -/
def normalizeT (o : Obj) : Obj :=
  if isFn o.transform then o else { o with transform := some JVal.undef }

/-- The argument of `_mergeConfig`, which callers may pass as nothing, a
table-name string, or a configuration object. -/
inductive MergeArg where
  | absent
  | str (s : String)
  | obj (o : Obj)
deriving DecidableEq, Repr

/-- Truthiness of the `_mergeConfig` argument, deciding the early
`if(!config) return this.config;` exit (an empty string is falsy). -/
def argTruthy : MergeArg → Bool
  | .absent => false
  | .str s => !(s == "")
  | .obj _ => true

/-- The `override` object `_mergeConfig` builds from its argument: `{}`
enriched with `tableName` for a string argument, or the (normalized)
argument object itself. -/
def overrideOf : MergeArg → Obj
  | .absent => emptyObj
  | .str s => { emptyObj with tableName := some (.str s) }
  | .obj o => normalizeT o

/-- The intermediate `let cfg = { ...this.config, ...override };`. -/
def mergedOf (selfCfg : Obj) (arg : MergeArg) : Obj :=
  spread selfCfg (overrideOf arg)

/-- The connection-handle resolution at the end of `_mergeConfig`:

```js
if(cfg.apiKey !== Airtable.apiKey) {
    Airtable.apiKey = cfg.apiKey;
    cfg.base = Airtable.base(cfg.baseID);
}
if(!cfg.base || (cfg.baseID !== cfg.base.getId())) cfg.base = Airtable.base(cfg.baseID);
```

`Airtable.base` is modelled as minting a handle bound to the id it is given,
carrying the next fresh serial.  The two `if` statements are split into the
two steps `rebindOnKey` and `ensureBase` composed by `resolveBase`. -/
def rebindOnKey (cfg : Obj) (st : GState) : Obj × GState :=
  if getProp cfg.apiKey ≠ st.airtableKey then
    ({ cfg with base := some (JVal.handle (getProp cfg.baseID) st.fresh) },
     ⟨getProp cfg.apiKey, st.fresh + 1⟩)
  else (cfg, st)

/-- The second handle-resolution statement of `_mergeConfig`:
`if(!cfg.base || (cfg.baseID !== cfg.base.getId())) cfg.base = Airtable.base(cfg.baseID);`
(the disjunction short-circuits, so `.getId()` is only reached on a truthy
`cfg.base`). -/
def ensureBase (cfg : Obj) (st : GState) : Obj × GState :=
  if ¬ jsTruthy (getProp cfg.base) ∨ getProp cfg.baseID ≠ getIdOf (getProp cfg.base) then
    ({ cfg with base := some (JVal.handle (getProp cfg.baseID) st.fresh) },
     ⟨st.airtableKey, st.fresh + 1⟩)
  else (cfg, st)

/-- Both handle-resolution statements in order. -/
def resolveBase (cfg : Obj) (st : GState) : Obj × GState :=
  let r := rebindOnKey cfg st
  ensureBase r.1 r.2

/-- Everything observable after a `_mergeConfig` call: the returned effective
configuration, the process-wide state, and the caller's argument as it stands
after the call (the object case may have been mutated by the transform
normalization). -/
structure MergeOut where
  cfg : Obj
  st : GState
  arg : MergeArg
deriving DecidableEq, Repr

/-- The caller's argument after `_mergeConfig` returns: an object argument
has had its `transform` property normalized in place; other argument kinds
are untouched. -/
def argAfter : MergeArg → MergeArg
  | .obj o => .obj (normalizeT o)
  | a => a

/-- `_mergeConfig` (lines 974-994).  A falsy argument returns the instance
configuration as-is, with no handle resolution; otherwise the override is
built (normalizing `transform` in place on an object argument), spread onto
the instance configuration, and the connection handle is resolved. -/
def mergeConfig (selfCfg : Obj) (arg : MergeArg) (st : GState) : MergeOut :=
  if argTruthy arg then
    let r := resolveBase (mergedOf selfCfg arg) st
    ⟨r.1, r.2, argAfter arg⟩
  else ⟨selfCfg, st, arg⟩

/-- The constructor's environment-default object
`{ apiKey: process.env…, baseID: process.env…, tableName: process.env…,
camelCase: false, complex: false, concurrency: 1, typecast: false }`
(lines 507-516).  All seven properties are present; the three
environment-sourced values may be `undefined`. -/
def envDefaults (ek eb et : JVal) : Obj :=
  ⟨some ek, some eb, some et, some (.bool false), some (.bool false),
   some (.num 1), some (.bool false), none, none⟩

/-- The constructor: `this.config = this._mergeConfig({ …defaults, …config })`.
At this point `this.config` is still undefined, so the spread
`{...this.config, ...override}` inside `_mergeConfig` degenerates to a copy
of the (already normalized) override object; handle resolution then runs on
it. -/
def constructorConfig (ek eb et : JVal) (userCfg : Option Obj) (st : GState) :
    Obj × GState :=
  let merged :=
    match userCfg with
    | some u => spread (envDefaults ek eb et) u
    | none => envDefaults ek eb et
  resolveBase (normalizeT merged) st

/-- The instance configuration cell after a `_mergeConfig` call whose
argument may alias it.  The only write `_mergeConfig` performs on any
pre-existing object is the transform normalization on its own argument
(line 980); `this.config` itself is never assigned outside the constructor,
and the effective configuration is a fresh spread.  Hence the instance
configuration changes exactly when the argument is that very object, modelled
here by value coincidence. -/
def selfAfter (selfCfg : Obj) (arg : MergeArg) : Obj :=
  match arg with
  | .obj o => if o = selfCfg then normalizeT o else selfCfg
  | _ => selfCfg

/-- A batch-operation input: the library's methods accept either a single
item or an array of items and detect the case with `Array.isArray`. -/
inductive JInput (α : Type u) where
  | scalar (a : α)
  | list (l : List α)
deriving DecidableEq, Repr

/-- Fuel-indexed worker for the `chunk` npm package at size 10: repeatedly
slice off the first ten elements.  Each step consumes at least one element,
so fuel equal to the list length suffices; the fuel only makes the recursion
structural (hence kernel-computable). -/
def chunkGo : Nat → List α → List (List α)
  | 0, _ => []
  | _ + 1, [] => []
  | fuel + 1, a :: t => ((a :: t).take 10) :: chunkGo fuel ((a :: t).drop 10)

/-- `chunk(data, 10)` from the `chunk` npm package: consecutive slices of
ten, the last slice holding the remainder. -/
def chunk10 (l : List α) : List (List α) := chunkGo l.length l

/-- `_chunkData` (lines 1017-1024): arrays longer than ten are sliced into
chunks of ten, shorter arrays (the empty array included) become a single
chunk, and a non-array value is wrapped as one chunk of one item. -/
def chunkData : JInput α → List (List α)
  | .list l => if l.length > 10 then chunk10 l else [l]
  | .scalar a => [[a]]

/-- The JavaScript value `_handleBatch` resolves to: `res` when
`res.length > 1`, otherwise `res[0]`, which is the single element or
`undefined` when `res` is empty. -/
inductive BatchResult (β : Type u) where
  | arr (l : List β)
  | one (b : β)
  | undefRes
deriving DecidableEq, Repr

/-- `_handleBatch` (lines 1035-1042): chunk the data, run the iterator over
every chunk (`pMap` keeps results in input order regardless of the
concurrency bound, so it is a map here), flatten, and return the flat list —
collapsed to its sole element, or to `undefined`, when its length is at most
one.  The collapse looks only at the result length, never at the shape of
the original input. -/
def handleBatch (data : JInput α) (iterator : List α → List β) : BatchResult β :=
  let res := ((chunkData data).map iterator).flatten
  if res.length > 1 then .arr res
  else match res with
    | [x] => .one x
    | _ => .undefRes

/-- Post-processing of `read` (lines 594-602) after the records have been
fetched and projected: apply `camelcaseKeys` when `camelCase` is set
(elementwise on the array, modelled by the abstract `cc`), then, when a
caller transform is configured, map it over copies of the records and keep
only truthy outputs — but adopt that transformed list only when it is
non-empty.  Falsy transform outputs are modelled by `none`.  The trailing
`records.filter(rows => !!rows)` of the source is the identity here: the
untransformed records are objects (truthy) and a transformed list was
already filtered truthy. -/
def readPostprocess (camelCase : Bool) (cc : α → α) (transform : Option (α → Option α))
    (records : List α) : List α :=
  let records1 := if camelCase then records.map cc else records
  match transform with
  | some t =>
      let transformed := (records1.map t).filterMap id
      if transformed.length > 0 then transformed else records1
  | none => records1

/-- The character class of the JavaScript regex `\s` (whitespace), used by
`_formatColumnFilter` via `/\s/g.test(columnName)`. -/
def jsWhitespaceChar (c : Char) : Bool :=
  c = ' ' || c = '\t' || c = '\n' || c = '\r' ||
  c.toNat = 0x0B || c.toNat = 0x0C || c.toNat = 0xA0 || c.toNat = 0x1680 ||
  (0x2000 ≤ c.toNat && c.toNat ≤ 0x200A) ||
  c.toNat = 0x2028 || c.toNat = 0x2029 || c.toNat = 0x202F ||
  c.toNat = 0x205F || c.toNat = 0x3000 || c.toNat = 0xFEFF

/-- `_formatColumnFilter` (lines 1005-1008): wrap the column name in curly
braces when it contains any whitespace character. -/
def formatColumnFilter (columnName : String) : String :=
  if columnName.toList.any jsWhitespaceChar then "\x7b" ++ columnName ++ "\x7d"
  else columnName

/-- A data object passed to `upsert`, as an association list from column
name to value; `data[key]` reads `undefined` when the key is missing. -/
def lookupData (d : List (String × JVal)) (k : String) : JVal :=
  match d.find? (fun p => p.1 == k) with
  | some p => p.2
  | none => JVal.undef

/-- Rendering of `data[key]` inside the upsert filter formula
(lines 943-949): strings are wrapped in double quotes and booleans become
the literals `TRUE`/`FALSE`; any other value falls through to the template
literal `${formattedData}` coercion. -/
def formatFilterValue : JVal → String
  | .str s => "\"" ++ s ++ "\""
  | .bool b => if b then "TRUE" else "FALSE"
  | .num n => toString n
  | .undef => "undefined"
  | .fn _ => "function"
  | .handle _ _ => "[object Object]"

/-- The `filterByFormula` string `upsert` builds (line 952). -/
def upsertFormula (key : String) (d : List (String × JVal)) : String :=
  formatColumnFilter key ++ " = " ++ formatFilterValue (lookupData d key)

/-- What `upsert` does once the matching rows are known (lines 954-963):
no matches issues a single `create(data, cfg)`, otherwise every match is
turned into `{ id, fields: data }` and the whole list goes to one batch
`update`. -/
inductive UpsertAction where
  | create (d : List (String × JVal))
  | bulkUpdate (records : List (String × List (String × JVal)))
deriving DecidableEq, Repr

/-- Decision step of `upsert` on the rows returned by `read` (each row
reduced to its id, which is what `upsert` extracts whether or not `complex`
is set). -/
def upsertAction (rows : List String) (d : List (String × JVal)) : UpsertAction :=
  if rows.length = 0 then .create d
  else .bulkUpdate (rows.map fun i => (i, d))

/-! ## Helper lemmas about chunking -/

theorem chunkGo_nil (fuel : Nat) : chunkGo fuel ([] : List α) = [] := by
  cases fuel <;> rfl

theorem chunkGo_cons (fuel : Nat) (a : α) (t : List α) :
    chunkGo (fuel + 1) (a :: t) = ((a :: t).take 10) :: chunkGo fuel ((a :: t).drop 10) := rfl

theorem chunkGo_flatten (fuel : Nat) :
    ∀ l : List α, l.length ≤ fuel → (chunkGo fuel l).flatten = l := by
  induction fuel with
  | zero =>
      intro l h
      have : l = [] := List.length_eq_zero.mp (Nat.le_zero.mp h)
      subst this; rfl
  | succ fuel ih =>
      intro l h
      match l with
      | [] => rfl
      | a :: t =>
          rw [chunkGo_cons, List.flatten_cons, ih]
          · exact List.take_append_drop 10 (a :: t)
          · have hl : (a :: t).length ≤ fuel + 1 := h
            simp only [List.length_drop]
            omega

theorem chunkGo_length (fuel : Nat) :
    ∀ l : List α, l.length ≤ fuel → (chunkGo fuel l).length = (l.length + 9) / 10 := by
  induction fuel with
  | zero =>
      intro l h
      have : l = [] := List.length_eq_zero.mp (Nat.le_zero.mp h)
      subst this; simp [chunkGo]
  | succ fuel ih =>
      intro l h
      cases l with
      | nil => simp [chunkGo_nil]
      | cons a t =>
          rw [chunkGo_cons, List.length_cons, ih]
          · simp only [List.length_drop]
            have : 0 < (a :: t).length := by simp
            omega
          · simp only [List.length_drop]
            have hl : (a :: t).length ≤ fuel + 1 := h
            omega

theorem chunkGo_ne_nil (fuel : Nat) (l : List α) (hne : l ≠ []) (h : l.length ≤ fuel) :
    chunkGo fuel l ≠ [] := by
  match fuel, l with
  | 0, l => exact absurd (List.length_eq_zero.mp (Nat.le_zero.mp h)) hne
  | fuel + 1, a :: t => rw [chunkGo_cons]; exact List.cons_ne_nil _ _

theorem chunkGo_dropLast (fuel : Nat) :
    ∀ l : List α, l.length ≤ fuel → ∀ c ∈ (chunkGo fuel l).dropLast, c.length = 10 := by
  induction fuel with
  | zero =>
      intro l h
      have : l = [] := List.length_eq_zero.mp (Nat.le_zero.mp h)
      subst this; intro c hc; simp [chunkGo] at hc
  | succ fuel ih =>
      intro l h
      cases l with
      | nil => intro c hc; rw [chunkGo_nil] at hc; simp at hc
      | cons a t =>
          intro c hc
          rw [chunkGo_cons] at hc
          by_cases hd : (a :: t).drop 10 = []
          · rw [hd, chunkGo_nil] at hc
            simp at hc
          · have hlen : (a :: t).length ≤ fuel + 1 := h
            have hdlen : ((a :: t).drop 10).length ≤ fuel := by
              simp only [List.length_drop]; omega
            have hrest : chunkGo fuel ((a :: t).drop 10) ≠ [] :=
              chunkGo_ne_nil fuel _ hd hdlen
            rw [List.dropLast_cons_of_ne_nil hrest] at hc
            rcases List.mem_cons.mp hc with hc | hc
            · subst hc
              have h10 : 10 < (a :: t).length := by
                by_contra hcon
                exact hd (List.drop_eq_nil_of_le (by omega))
              simp only [List.length_take, List.length_cons] at h10 ⊢
              omega
            · exact ih _ hdlen c hc

theorem chunk10_flatten (l : List α) : (chunk10 l).flatten = l :=
  chunkGo_flatten l.length l (Nat.le_refl _)

theorem chunk10_length (l : List α) : (chunk10 l).length = (l.length + 9) / 10 :=
  chunkGo_length l.length l (Nat.le_refl _)

theorem chunk10_dropLast (l : List α) : ∀ c ∈ (chunk10 l).dropLast, c.length = 10 :=
  chunkGo_dropLast l.length l (Nat.le_refl _)

theorem chunkData_list_eq (l : List α) :
    chunkData (.list l) = if l.length > 10 then chunk10 l else [l] := rfl

theorem chunkData_list_flatten (l : List α) : (chunkData (.list l)).flatten = l := by
  rw [chunkData_list_eq]
  by_cases h : l.length > 10
  · rw [if_pos h]; exact chunk10_flatten l
  · rw [if_neg h]; simp

/-- Mapping an elementwise iterator over the chunks and flattening gives the
elementwise map of the input, whatever the chunking was. -/
theorem handleBatch_map_flatten (d : JInput α) (mk : α → β) :
    ((chunkData d).map (fun items => items.map mk)).flatten
      = (chunkData d).flatten.map mk := by
  exact (List.map_flatten mk (chunkData d)).symm

/-! ## Claim C6: chunk sizes -/

/-- C6: a non-empty sequence of at most ten items is returned as exactly one
chunk equal to the input; a sequence of length `L > 10` is returned as
`⌈L/10⌉` chunks, all but the last of size exactly ten, whose concatenation
equals the input in order. -/
theorem chunkData_chunk_sizes_spec (l : List α) :
    (0 < l.length → l.length ≤ 10 → chunkData (.list l) = [l]) ∧
    (10 < l.length →
      (chunkData (.list l)).length = (l.length + 9) / 10 ∧
      (∀ c ∈ (chunkData (.list l)).dropLast, c.length = 10) ∧
      (chunkData (.list l)).flatten = l) := by
  constructor
  · intro _ h2
    rw [chunkData_list_eq, if_neg (by omega)]
  · intro h
    rw [chunkData_list_eq, if_pos h]
    exact ⟨chunk10_length l, chunk10_dropLast l, chunk10_flatten l⟩

/-- Witness for C6 at a three-element and a 23-element input. -/
theorem chunkData_chunk_sizes_spec_witness :
    chunkData (.list [(1 : Nat), 2, 3]) = [[1, 2, 3]] ∧
    ((chunkData (.list (List.range 23))).length = 3 ∧
     (∀ c ∈ (chunkData (.list (List.range 23))).dropLast, c.length = 10) ∧
     (chunkData (.list (List.range 23))).flatten = List.range 23) := by
  refine ⟨(chunkData_chunk_sizes_spec [(1 : Nat), 2, 3]).1 (by decide) (by decide), ?_⟩
  have h := (chunkData_chunk_sizes_spec (List.range 23)).2 (by decide)
  refine ⟨?_, h.2.1, h.2.2⟩
  rw [h.1]
  decide

/-! ## Claim C1: result-shape collapse of `_handleBatch` -/

/-- C1: evaluation of `_handleBatch` at the failing input.  A list-shaped
input holding a single item, run through an elementwise iterator (exactly
what `create`, batch `update`/`replace` and `delete` pass), produces a bare
collapsed value rather than a one-element sequence: the collapse at line
1041 (`res.length > 1 ? res : res[0]`) looks only at the flat result length,
never at the shape of the original input.  This contradicts the claim (and
the repository's own tests and generated docs, which expect array results
from list-shaped bulk operations even for a single match). -/
theorem handleBatch_singleton_list_collapses :
    handleBatch (JInput.list [(5 : Nat)]) (fun items => items.map (fun n => n + 1))
      = BatchResult.one 6 := by rfl

/-! ## Claim C3: empty-sequence chunking -/

/-- C3 counterexample: `_chunkData` on the empty list returns `[[]]` — one
empty chunk — and `_handleBatch` does invoke its iterator on that empty
chunk (the `7` in the output can only come from the iterator running on
`[]`), so an empty-chunk request is issued. -/
theorem chunkData_empty_produces_empty_chunk :
    chunkData (JInput.list ([] : List Nat)) = [[]] ∧
    handleBatch (JInput.list ([] : List Nat)) (fun c => [c.length + 7])
      = BatchResult.one 7 := ⟨rfl, rfl⟩

/-- C3 amended: for the empty sequence input the chunking step takes the
`length ≤ 10` branch and returns `[[]]`, a single empty chunk (the
scalar-wrapping rule is indeed not applied, but empty input is not
special-cased either), and the batch handler runs its iterator exactly once,
on that empty chunk. -/
theorem chunkData_empty_list_single_empty_chunk (α β : Type) (it : List α → List β) :
    chunkData (JInput.list ([] : List α)) = [[]] ∧
    (chunkData (JInput.list ([] : List α))).map it = [it []] :=
  ⟨rfl, rfl⟩

/-! ## Claim C5: the `read` transform fallback -/

/-- C5: `read` applies the key-casing map first and the caller transform
second; transform outputs that are falsy are dropped, but when the transform
returns falsy for every record the (key-cased) untransformed records are
returned; as soon as one record transforms to a truthy value, the filtered
transformed set replaces the original. -/
theorem read_transform_fallback_spec (camelCase : Bool) (cc : α → α)
    (t : α → Option α) (records : List α) :
    ((∀ r ∈ (if camelCase then records.map cc else records), t r = none) →
        readPostprocess camelCase cc (some t) records
          = (if camelCase then records.map cc else records)) ∧
    ((∃ r ∈ (if camelCase then records.map cc else records), (t r).isSome) →
        readPostprocess camelCase cc (some t) records
          = ((if camelCase then records.map cc else records).map t).filterMap id) := by
  constructor
  · intro hall
    have hnil : (((if camelCase then records.map cc else records).map t).filterMap id) = [] := by
      rw [List.filterMap_map]
      exact List.filterMap_eq_nil_iff.mpr (by simpa using hall)
    show (if (((if camelCase then records.map cc else records).map t).filterMap id).length > 0
          then ((if camelCase then records.map cc else records).map t).filterMap id
          else (if camelCase then records.map cc else records))
        = (if camelCase then records.map cc else records)
    rw [hnil]
    rfl
  · rintro ⟨r, hr, hsome⟩
    have hne : (((if camelCase then records.map cc else records).map t).filterMap id) ≠ [] := by
      rw [List.filterMap_map]
      intro hcon
      have h2 := List.filterMap_eq_nil_iff.mp hcon r hr
      simp only [Function.comp_apply, id_eq] at h2
      rw [h2] at hsome
      simp at hsome
    have hpos : 0 < (((if camelCase then records.map cc else records).map t).filterMap id).length :=
      List.length_pos.mpr hne
    show (if (((if camelCase then records.map cc else records).map t).filterMap id).length > 0
          then ((if camelCase then records.map cc else records).map t).filterMap id
          else (if camelCase then records.map cc else records))
        = ((if camelCase then records.map cc else records).map t).filterMap id
    rw [if_pos hpos]

/-- Witness for C5: an all-falsy transform falls back to the input; a
transform that is truthy on some records replaces them with its outputs. -/
theorem read_transform_fallback_spec_witness :
    readPostprocess false id (some (fun _ => (none : Option Nat))) [5, 6] = [5, 6] ∧
    readPostprocess true (fun n => n + 1)
      (some (fun n => if n % 2 = 0 then some (n * 10) else none)) [1, 3] = [20, 40] := by
  constructor
  · exact (read_transform_fallback_spec false id (fun _ => (none : Option Nat)) [5, 6]).1
      (fun r _ => rfl)
  · have h := (read_transform_fallback_spec true (fun n => n + 1)
      (fun n : Nat => if n % 2 = 0 then some (n * 10) else none) [1, 3]).2
      ⟨2, by decide, by decide⟩
    rw [h]
    decide

/-! ## Claim C4: the upsert pipeline -/

/-- C4: with key and data present, `upsert` builds the filter formula from
the brace-wrapped-when-whitespaced column name and the rendered `data[key]`
(strings quoted, booleans as the literals `TRUE`/`FALSE`); zero matching
rows lead to a single scalar `create` whose batch result collapses to the
bare created record, and matching rows are all sent, keyed by their ids, to
one bulk update carrying `data` as the fields of every record. -/
theorem upsert_filter_create_update_spec (key : String) (d : List (String × JVal))
    (rows : List String) (β : Type) (mk : List (String × JVal) → β)
    (hkey : key ≠ "") :
    (upsertFormula key d
        = formatColumnFilter key ++ " = " ++ formatFilterValue (lookupData d key)) ∧
    (∀ s, lookupData d key = .str s →
        upsertFormula key d = formatColumnFilter key ++ " = " ++ ("\"" ++ s ++ "\"")) ∧
    (∀ b, lookupData d key = .bool b →
        upsertFormula key d
          = formatColumnFilter key ++ " = " ++ (if b then "TRUE" else "FALSE")) ∧
    (key.toList.any jsWhitespaceChar = true →
        formatColumnFilter key = "\x7b" ++ key ++ "\x7d") ∧
    (key.toList.any jsWhitespaceChar = false → formatColumnFilter key = key) ∧
    (rows = [] →
        upsertAction rows d = .create d ∧
        (chunkData (JInput.scalar d)).length = 1 ∧
        handleBatch (JInput.scalar d) (fun items => items.map mk) = .one (mk d)) ∧
    (rows ≠ [] → upsertAction rows d = .bulkUpdate (rows.map fun i => (i, d))) := by
  refine ⟨rfl, ?_, ?_, ?_, ?_, ?_, ?_⟩
  · intro s hs
    unfold upsertFormula
    rw [hs]
    rfl
  · intro b hb
    unfold upsertFormula
    rw [hb]
    rfl
  · intro h
    unfold formatColumnFilter
    rw [if_pos h]
  · intro h
    unfold formatColumnFilter
    have hne : ¬ (key.toList.any jsWhitespaceChar = true) := by
      rw [h]
      exact Bool.false_ne_true
    rw [if_neg hne]
  · intro h
    subst h
    exact ⟨rfl, rfl, rfl⟩
  · intro h
    unfold upsertAction
    rw [if_neg (by simpa using h)]

/-- Witness for C4: a whitespaced key column with a string value, no matches
(create path) and one match (bulk-update path). -/
theorem upsert_filter_create_update_spec_witness :
    upsertFormula "First Name" [("First Name", JVal.str "foo")]
      = "\x7bFirst Name\x7d = \"foo\"" ∧
    upsertAction [] [("First Name", JVal.str "foo")]
      = .create [("First Name", JVal.str "foo")] ∧
    handleBatch (JInput.scalar [("First Name", JVal.str "foo")])
      (fun items => items.map List.length) = .one 1 ∧
    upsertAction ["rec1"] [("First Name", JVal.str "foo")]
      = .bulkUpdate [("rec1", [("First Name", JVal.str "foo")])] := by
  have h0 := upsert_filter_create_update_spec "First Name"
    [("First Name", JVal.str "foo")] [] Nat List.length (by decide)
  have h1 := upsert_filter_create_update_spec "First Name"
    [("First Name", JVal.str "foo")] ["rec1"] Nat List.length (by decide)
  refine ⟨?_, (h0.2.2.2.2.2.1 rfl).1, (h0.2.2.2.2.2.1 rfl).2.2, h1.2.2.2.2.2.2 (by decide)⟩
  have hf := h0.2.1 "foo" rfl
  rw [hf, h0.2.2.2.1 (by decide)]
  decide

/-! ## Helper lemmas about `_mergeConfig` -/

theorem isFn_iff (x : Option JVal) : isFn x = true ↔ ∃ n, x = some (JVal.fn n) := by
  cases x with
  | none => simp [isFn]
  | some v => cases v <;> simp [isFn]

theorem normalizeT_transform (o : Obj) :
    (normalizeT o).transform = if isFn o.transform then o.transform else some JVal.undef := by
  unfold normalizeT
  split <;> rfl

theorem normalizeT_preserves (o : Obj) :
    (normalizeT o).apiKey = o.apiKey ∧
    (normalizeT o).baseID = o.baseID ∧
    (normalizeT o).tableName = o.tableName ∧
    (normalizeT o).camelCase = o.camelCase ∧
    (normalizeT o).complex = o.complex ∧
    (normalizeT o).concurrency = o.concurrency ∧
    (normalizeT o).typecast = o.typecast ∧
    (normalizeT o).base = o.base := by
  unfold normalizeT
  split <;> exact ⟨rfl, rfl, rfl, rfl, rfl, rfl, rfl, rfl⟩

theorem normalizeT_eq_self (o : Obj)
    (h : o.transform = some JVal.undef ∨ ∃ n, o.transform = some (JVal.fn n)) :
    normalizeT o = o := by
  rcases h with h | h
  · cases o with
    | mk a b c d e f g tr ba =>
        simp only at h
        subst h
        unfold normalizeT
        simp [isFn]
  · unfold normalizeT
    rw [if_pos ((isFn_iff o.transform).mpr h)]

theorem rebindOnKey_of_ne (cfg : Obj) (st : GState)
    (h : getProp cfg.apiKey ≠ st.airtableKey) :
    rebindOnKey cfg st =
      ({ cfg with base := some (JVal.handle (getProp cfg.baseID) st.fresh) },
       ⟨getProp cfg.apiKey, st.fresh + 1⟩) := by
  unfold rebindOnKey
  rw [if_pos h]

theorem rebindOnKey_of_eq (cfg : Obj) (st : GState)
    (h : getProp cfg.apiKey = st.airtableKey) :
    rebindOnKey cfg st = (cfg, st) := by
  unfold rebindOnKey
  rw [if_neg (by simp [h])]

theorem ensureBase_of_match (cfg : Obj) (st : GState)
    (h1 : jsTruthy (getProp cfg.base) = true)
    (h2 : getProp cfg.baseID = getIdOf (getProp cfg.base)) :
    ensureBase cfg st = (cfg, st) := by
  unfold ensureBase
  rw [if_neg (by push_neg; exact ⟨h1, h2⟩)]

theorem ensureBase_of_mint (cfg : Obj) (st : GState)
    (h : ¬ jsTruthy (getProp cfg.base) = true ∨ getProp cfg.baseID ≠ getIdOf (getProp cfg.base)) :
    ensureBase cfg st =
      ({ cfg with base := some (JVal.handle (getProp cfg.baseID) st.fresh) },
       ⟨st.airtableKey, st.fresh + 1⟩) := by
  unfold ensureBase
  rw [if_pos h]

theorem rebindOnKey_preserves (cfg : Obj) (st : GState) :
    (rebindOnKey cfg st).1.apiKey = cfg.apiKey ∧
    (rebindOnKey cfg st).1.baseID = cfg.baseID ∧
    (rebindOnKey cfg st).1.tableName = cfg.tableName ∧
    (rebindOnKey cfg st).1.camelCase = cfg.camelCase ∧
    (rebindOnKey cfg st).1.complex = cfg.complex ∧
    (rebindOnKey cfg st).1.concurrency = cfg.concurrency ∧
    (rebindOnKey cfg st).1.typecast = cfg.typecast ∧
    (rebindOnKey cfg st).1.transform = cfg.transform := by
  unfold rebindOnKey
  split <;> exact ⟨rfl, rfl, rfl, rfl, rfl, rfl, rfl, rfl⟩

theorem ensureBase_preserves (cfg : Obj) (st : GState) :
    (ensureBase cfg st).1.apiKey = cfg.apiKey ∧
    (ensureBase cfg st).1.baseID = cfg.baseID ∧
    (ensureBase cfg st).1.tableName = cfg.tableName ∧
    (ensureBase cfg st).1.camelCase = cfg.camelCase ∧
    (ensureBase cfg st).1.complex = cfg.complex ∧
    (ensureBase cfg st).1.concurrency = cfg.concurrency ∧
    (ensureBase cfg st).1.typecast = cfg.typecast ∧
    (ensureBase cfg st).1.transform = cfg.transform := by
  unfold ensureBase
  split <;> exact ⟨rfl, rfl, rfl, rfl, rfl, rfl, rfl, rfl⟩

theorem resolveBase_preserves (cfg : Obj) (st : GState) :
    (resolveBase cfg st).1.apiKey = cfg.apiKey ∧
    (resolveBase cfg st).1.baseID = cfg.baseID ∧
    (resolveBase cfg st).1.tableName = cfg.tableName ∧
    (resolveBase cfg st).1.camelCase = cfg.camelCase ∧
    (resolveBase cfg st).1.complex = cfg.complex ∧
    (resolveBase cfg st).1.concurrency = cfg.concurrency ∧
    (resolveBase cfg st).1.typecast = cfg.typecast ∧
    (resolveBase cfg st).1.transform = cfg.transform := by
  have h1 := rebindOnKey_preserves cfg st
  have h2 := ensureBase_preserves (rebindOnKey cfg st).1 (rebindOnKey cfg st).2
  unfold resolveBase
  exact ⟨h2.1.trans h1.1, h2.2.1.trans h1.2.1, h2.2.2.1.trans h1.2.2.1,
    h2.2.2.2.1.trans h1.2.2.2.1, h2.2.2.2.2.1.trans h1.2.2.2.2.1,
    h2.2.2.2.2.2.1.trans h1.2.2.2.2.2.1, h2.2.2.2.2.2.2.1.trans h1.2.2.2.2.2.2.1,
    h2.2.2.2.2.2.2.2.trans h1.2.2.2.2.2.2.2⟩

theorem constructorConfig_transform_normalized (ek eb et : JVal) (u : Option Obj)
    (st : GState) :
    (constructorConfig ek eb et u st).1.transform = some JVal.undef ∨
    ∃ n, (constructorConfig ek eb et u st).1.transform = some (JVal.fn n) := by
  cases u with
  | none =>
      have hp := (resolveBase_preserves (normalizeT (envDefaults ek eb et)) st).2.2.2.2.2.2.2
      unfold constructorConfig
      rw [hp, normalizeT_transform]
      by_cases hf : isFn (envDefaults ek eb et).transform = true
      · rw [if_pos hf]
        exact Or.inr ((isFn_iff _).mp hf)
      · rw [if_neg hf]
        exact Or.inl rfl
  | some uo =>
      have hp := (resolveBase_preserves
        (normalizeT (spread (envDefaults ek eb et) uo)) st).2.2.2.2.2.2.2
      unfold constructorConfig
      rw [hp, normalizeT_transform]
      by_cases hf : isFn (spread (envDefaults ek eb et) uo).transform = true
      · rw [if_pos hf]
        exact Or.inr ((isFn_iff _).mp hf)
      · rw [if_neg hf]
        exact Or.inl rfl

/-- Full behaviour of the handle-resolution step on a configuration whose
`base` slot is either absent/undefined or a handle (the only shapes the
library produces): the resulting handle is bound to the configuration's
`baseID`; a credential mismatch with the process-global key forces a mint,
as does a missing handle or a container mismatch; and the input handle and
state survive untouched exactly when credential and container both match. -/
theorem resolveBase_spec (cfg : Obj) (st : GState)
    (hb : getProp cfg.base = JVal.undef ∨ ∃ b n, getProp cfg.base = JVal.handle b n) :
    getIdOf (getProp (resolveBase cfg st).1.base) = getProp cfg.baseID ∧
    (getProp cfg.apiKey ≠ st.airtableKey →
      (resolveBase cfg st).1.base = some (JVal.handle (getProp cfg.baseID) st.fresh) ∧
      (resolveBase cfg st).2.fresh = st.fresh + 1) ∧
    ((getProp cfg.base = JVal.undef ∨
        ∃ b n, getProp cfg.base = JVal.handle b n ∧ b ≠ getProp cfg.baseID) →
      (resolveBase cfg st).1.base = some (JVal.handle (getProp cfg.baseID) st.fresh) ∧
      (resolveBase cfg st).2.fresh = st.fresh + 1) ∧
    (((resolveBase cfg st).1.base = cfg.base ∧ (resolveBase cfg st).2 = st) ↔
      (getProp cfg.apiKey = st.airtableKey ∧
       ∃ b n, getProp cfg.base = JVal.handle b n ∧ b = getProp cfg.baseID)) := by
  by_cases hk : getProp cfg.apiKey = st.airtableKey
  · have hr : resolveBase cfg st = ensureBase cfg st := by
      unfold resolveBase
      rw [rebindOnKey_of_eq cfg st hk]
    rcases hb with hbu | ⟨b, n, hbn⟩
    · have hmint := ensureBase_of_mint cfg st (Or.inl (by rw [hbu]; simp [jsTruthy]))
      rw [hr, hmint]
      refine ⟨rfl, fun hcon => absurd hk hcon, fun _ => ⟨rfl, rfl⟩, ?_⟩
      constructor
      · rintro ⟨-, hst⟩
        exfalso
        have hfr := congrArg GState.fresh hst
        simp at hfr
      · rintro ⟨-, b2, n2, hbn2, -⟩
        rw [hbu] at hbn2
        simp at hbn2
    · by_cases hbid : b = getProp cfg.baseID
      · have hmm : getProp cfg.baseID = getIdOf (getProp cfg.base) := by
          rw [hbn]
          exact hbid.symm
        have htr : jsTruthy (getProp cfg.base) = true := by rw [hbn]; rfl
        have hmB := ensureBase_of_match cfg st htr hmm
        rw [hr, hmB]
        refine ⟨?_, fun hcon => absurd hk hcon, ?_, ?_⟩
        · rw [hbn]
          exact hbid
        · rintro (hu | ⟨b2, n2, hbn2, hne2⟩)
          · rw [hbn] at hu
            simp at hu
          · rw [hbn] at hbn2
            injection hbn2 with hb2 hn2
            rw [← hb2] at hne2
            exact absurd hbid hne2
        · constructor
          · intro _
            exact ⟨hk, b, n, hbn, hbid⟩
          · intro _
            exact ⟨rfl, rfl⟩
      · have hmm : getProp cfg.baseID ≠ getIdOf (getProp cfg.base) := by
          rw [hbn]
          exact fun hcc => hbid hcc.symm
        have hmB := ensureBase_of_mint cfg st (Or.inr hmm)
        rw [hr, hmB]
        refine ⟨rfl, fun hcon => absurd hk hcon, fun _ => ⟨rfl, rfl⟩, ?_⟩
        constructor
        · rintro ⟨-, hst⟩
          exfalso
          have hfr := congrArg GState.fresh hst
          simp at hfr
        · rintro ⟨-, b2, n2, hbn2, heq2⟩
          rw [hbn] at hbn2
          injection hbn2 with hb2 hn2
          rw [← hb2] at heq2
          exact absurd heq2 hbid
  · have hr1 := rebindOnKey_of_ne cfg st hk
    have hres : resolveBase cfg st =
        ({ cfg with base := some (JVal.handle (getProp cfg.baseID) st.fresh) },
         ⟨getProp cfg.apiKey, st.fresh + 1⟩) := by
      unfold resolveBase
      rw [hr1]
      exact ensureBase_of_match _ _ rfl rfl
    rw [hres]
    refine ⟨rfl, fun _ => ⟨rfl, rfl⟩, fun _ => ⟨rfl, rfl⟩, ?_⟩
    constructor
    · rintro ⟨-, hst⟩
      exact absurd (congrArg GState.airtableKey hst) hk
    · rintro ⟨hkk, -⟩
      exact absurd hkk hk

/-! ## Claim C2: object-override merging -/

/-- C2 counterexample: the instance default holds a callable transform, the
override is `{}` (its `transform` property absent), yet the merged
configuration's `transform` is `undefined`, not the instance default — the
normalization writes `transform: undefined` onto the override before the
spread, so the override always wins on `transform`. -/
theorem mergeConfig_absent_transform_clobbers_default :
    (mergeConfig
        ⟨some (.str "k"), some (.str "b"), some (.str "t"), some (.bool false),
         some (.bool false), some (.num 1), some (.bool false), some (.fn 3),
         some (.handle (.str "b") 0)⟩
        (.obj emptyObj) ⟨.str "k", 1⟩).cfg.transform = some JVal.undef ∧
    (⟨some (.str "k"), some (.str "b"), some (.str "t"), some (.bool false),
      some (.bool false), some (.num 1), some (.bool false), some (.fn 3),
      some (.handle (.str "b") 0)⟩ : Obj).transform = some (JVal.fn 3) ∧
    emptyObj.transform = none := ⟨rfl, rfl, rfl⟩

/-- C2 amended: a map override is transform-normalized in place, shallow
merged onto (a copy of) the instance defaults with the override winning per
present key, and then handle-resolved; every key other than `transform` and
the re-resolved `base` that is absent from the override keeps its instance
default; the resulting `transform` is the override's value when callable and
`undefined` otherwise, regardless of the instance default. -/
theorem mergeConfig_object_override_merge (selfCfg o : Obj) (st : GState) :
    (mergeConfig selfCfg (.obj o) st).cfg
      = (resolveBase (spread selfCfg (normalizeT o)) st).1 ∧
    (mergeConfig selfCfg (.obj o) st).cfg.apiKey = propOr o.apiKey selfCfg.apiKey ∧
    (mergeConfig selfCfg (.obj o) st).cfg.baseID = propOr o.baseID selfCfg.baseID ∧
    (mergeConfig selfCfg (.obj o) st).cfg.tableName
      = propOr o.tableName selfCfg.tableName ∧
    (mergeConfig selfCfg (.obj o) st).cfg.camelCase
      = propOr o.camelCase selfCfg.camelCase ∧
    (mergeConfig selfCfg (.obj o) st).cfg.complex = propOr o.complex selfCfg.complex ∧
    (mergeConfig selfCfg (.obj o) st).cfg.concurrency
      = propOr o.concurrency selfCfg.concurrency ∧
    (mergeConfig selfCfg (.obj o) st).cfg.typecast
      = propOr o.typecast selfCfg.typecast ∧
    (mergeConfig selfCfg (.obj o) st).cfg.transform
      = (if isFn o.transform then o.transform else some JVal.undef) := by
  have hcfg : (mergeConfig selfCfg (.obj o) st).cfg
      = (resolveBase (spread selfCfg (normalizeT o)) st).1 := rfl
  have hp := resolveBase_preserves (spread selfCfg (normalizeT o)) st
  have hn := normalizeT_preserves o
  have htn : (spread selfCfg (normalizeT o)).transform
      = if isFn o.transform then o.transform else some JVal.undef := by
    show propOr (normalizeT o).transform selfCfg.transform = _
    rw [normalizeT_transform]
    by_cases hf : isFn o.transform = true
    · rw [if_pos hf]
      rcases (isFn_iff o.transform).mp hf with ⟨m, hm⟩
      rw [hm]
      rfl
    · rw [if_neg hf]
      rfl
  refine ⟨hcfg, ?_, ?_, ?_, ?_, ?_, ?_, ?_, ?_⟩
  · rw [hcfg, hp.1]
    show propOr (normalizeT o).apiKey selfCfg.apiKey = _
    rw [hn.1]
  · rw [hcfg, hp.2.1]
    show propOr (normalizeT o).baseID selfCfg.baseID = _
    rw [hn.2.1]
  · rw [hcfg, hp.2.2.1]
    show propOr (normalizeT o).tableName selfCfg.tableName = _
    rw [hn.2.2.1]
  · rw [hcfg, hp.2.2.2.1]
    show propOr (normalizeT o).camelCase selfCfg.camelCase = _
    rw [hn.2.2.2.1]
  · rw [hcfg, hp.2.2.2.2.1]
    show propOr (normalizeT o).complex selfCfg.complex = _
    rw [hn.2.2.2.2.1]
  · rw [hcfg, hp.2.2.2.2.2.1]
    show propOr (normalizeT o).concurrency selfCfg.concurrency = _
    rw [hn.2.2.2.2.2.1]
  · rw [hcfg, hp.2.2.2.2.2.2.1]
    show propOr (normalizeT o).typecast selfCfg.typecast = _
    rw [hn.2.2.2.2.2.2.1]
  · rw [hcfg, hp.2.2.2.2.2.2.2.trans htn]

/-! ## Claim C8: the instance configuration is never mutated -/

/-- C8: for an instance configuration produced by the constructor, no
`_mergeConfig` call changes it — with any argument shape (absent, string, or
object), even when the object argument is the instance configuration itself
(the aliasing that occurs when a method is called without a config override
and passes `this.config` on to a nested call): the only write `_mergeConfig`
performs, the transform normalization, then stores the value the slot
already holds, and the fresh effective configuration is never written back. -/
theorem mergeConfig_preserves_instance_config (ek eb et : JVal) (u : Option Obj)
    (st0 : GState) (arg : MergeArg) :
    selfAfter (constructorConfig ek eb et u st0).1 arg
      = (constructorConfig ek eb et u st0).1 := by
  cases arg with
  | absent => rfl
  | str s => rfl
  | obj o =>
      show (if o = (constructorConfig ek eb et u st0).1
            then normalizeT o else (constructorConfig ek eb et u st0).1)
          = (constructorConfig ek eb et u st0).1
      by_cases h : o = (constructorConfig ek eb et u st0).1
      · rw [if_pos h, h]
        exact normalizeT_eq_self _ (constructorConfig_transform_normalized ek eb et u st0)
      · rw [if_neg h]

/-! ## Claim C7: connection-handle resolution -/

/-- C7 counterexample: with no override argument, `_mergeConfig` returns the
instance configuration — old handle included — without any resolution, even
though the merged (= instance) `apiKey` `"a"` differs from the process-wide
current credential `"b"`: no new handle is minted and the global state is
untouched, contradicting the claim for "every call to `_mergeConfig`". -/
theorem mergeConfig_no_override_skips_rebind :
    getProp (⟨some (.str "a"), some (.str "B"), some (.str "t"), some (.bool false),
      some (.bool false), some (.num 1), some (.bool false), some JVal.undef,
      some (.handle (.str "B") 0)⟩ : Obj).apiKey
        ≠ (⟨.str "b", 5⟩ : GState).airtableKey ∧
    mergeConfig
      ⟨some (.str "a"), some (.str "B"), some (.str "t"), some (.bool false),
       some (.bool false), some (.num 1), some (.bool false), some JVal.undef,
       some (.handle (.str "B") 0)⟩ .absent ⟨.str "b", 5⟩
      = ⟨⟨some (.str "a"), some (.str "B"), some (.str "t"), some (.bool false),
          some (.bool false), some (.num 1), some (.bool false), some JVal.undef,
          some (.handle (.str "B") 0)⟩, ⟨.str "b", 5⟩, .absent⟩ ∧
    (mergeConfig
      ⟨some (.str "a"), some (.str "B"), some (.str "t"), some (.bool false),
       some (.bool false), some (.num 1), some (.bool false), some JVal.undef,
       some (.handle (.str "B") 0)⟩ .absent ⟨.str "b", 5⟩).cfg.base
      = some (JVal.handle (.str "B") 0) :=
  ⟨by decide, rfl, rfl⟩

/-- C7 amended: for every `_mergeConfig` call whose argument is truthy
(a non-empty string or an object), the returned configuration is the merged
configuration with the connection handle resolved: the handle is bound to
the merged `baseID`; a new handle (carrying the next fresh serial) is minted
whenever the merged `apiKey` differs from the process-wide current
credential, and independently whenever no handle exists or the existing
handle's bound container differs from the merged `baseID`; the existing
handle and the process state survive exactly when both credential and
container match.  A falsy argument (absent or the empty string) skips
resolution entirely and returns the instance configuration as-is. -/
theorem mergeConfig_handle_resolution_spec (selfCfg : Obj) (arg : MergeArg)
    (st : GState) (m : Obj) (hm : m = mergedOf selfCfg arg)
    (ht : argTruthy arg = true)
    (hb : getProp m.base = JVal.undef ∨ ∃ b n, getProp m.base = JVal.handle b n) :
    mergeConfig selfCfg arg st
      = ⟨(resolveBase m st).1, (resolveBase m st).2, argAfter arg⟩ ∧
    getIdOf (getProp (mergeConfig selfCfg arg st).cfg.base) = getProp m.baseID ∧
    (getProp m.apiKey ≠ st.airtableKey →
      (mergeConfig selfCfg arg st).cfg.base
        = some (JVal.handle (getProp m.baseID) st.fresh) ∧
      (mergeConfig selfCfg arg st).st.fresh = st.fresh + 1) ∧
    ((getProp m.base = JVal.undef ∨
        ∃ b n, getProp m.base = JVal.handle b n ∧ b ≠ getProp m.baseID) →
      (mergeConfig selfCfg arg st).cfg.base
        = some (JVal.handle (getProp m.baseID) st.fresh) ∧
      (mergeConfig selfCfg arg st).st.fresh = st.fresh + 1) ∧
    (((mergeConfig selfCfg arg st).cfg.base = m.base ∧
        (mergeConfig selfCfg arg st).st = st) ↔
      (getProp m.apiKey = st.airtableKey ∧
       ∃ b n, getProp m.base = JVal.handle b n ∧ b = getProp m.baseID)) ∧
    mergeConfig selfCfg .absent st = ⟨selfCfg, st, .absent⟩ := by
  subst hm
  have hout : mergeConfig selfCfg arg st
      = ⟨(resolveBase (mergedOf selfCfg arg) st).1,
         (resolveBase (mergedOf selfCfg arg) st).2, argAfter arg⟩ := by
    unfold mergeConfig
    rw [ht]
    rfl
  have hs := resolveBase_spec (mergedOf selfCfg arg) st hb
  rw [hout]
  exact ⟨rfl, hs.1, hs.2.1, hs.2.2.1, hs.2.2.2, rfl⟩

/-- Witness for C7, matching-credential matching-container case: the
existing handle (serial 7) is reused and the process state untouched. -/
theorem mergeConfig_handle_resolution_spec_witness :
    (mergeConfig
      ⟨some (.str "k"), some (.str "B"), some (.str "t"), some (.bool false),
       some (.bool false), some (.num 1), some (.bool false), some JVal.undef,
       some (.handle (.str "B") 7)⟩ (.str "T2") ⟨.str "k", 9⟩).cfg.base
      = some (JVal.handle (.str "B") 7) ∧
    (mergeConfig
      ⟨some (.str "k"), some (.str "B"), some (.str "t"), some (.bool false),
       some (.bool false), some (.num 1), some (.bool false), some JVal.undef,
       some (.handle (.str "B") 7)⟩ (.str "T2") ⟨.str "k", 9⟩).st
      = ⟨.str "k", 9⟩ := by
  have h := mergeConfig_handle_resolution_spec
    ⟨some (.str "k"), some (.str "B"), some (.str "t"), some (.bool false),
     some (.bool false), some (.num 1), some (.bool false), some JVal.undef,
     some (.handle (.str "B") 7)⟩ (.str "T2") ⟨.str "k", 9⟩ _ rfl (by decide)
    (Or.inr ⟨.str "B", 7, rfl⟩)
  exact (h.2.2.2.2.1.mpr ⟨rfl, .str "B", 7, rfl, rfl⟩)

/-! ## Claim C10: mutation of the caller's override object -/

/-- C10 counterexample: an override whose `transform` property is already
present with value `undefined` is not a function, yet the caller's object
after the call is identical to what it was before — no observable change. -/
theorem mergeConfig_undefined_transform_unchanged :
    isFn ({ emptyObj with transform := some JVal.undef } : Obj).transform = false ∧
    (mergeConfig emptyObj (.obj { emptyObj with transform := some JVal.undef })
        ⟨JVal.undef, 0⟩).arg
      = .obj { emptyObj with transform := some JVal.undef } :=
  ⟨rfl, rfl⟩

/-- C10 amended: `_mergeConfig` hands back its object argument with
`transform` normalized in place — set to `undefined` whenever it is not
callable (also when absent) — so the caller's object is observably changed
exactly when its `transform` property was neither a function nor already
present with value `undefined`. -/
theorem mergeConfig_mutates_override_transform (selfCfg o : Obj) (st : GState) :
    (mergeConfig selfCfg (.obj o) st).arg = .obj (normalizeT o) ∧
    (isFn o.transform = false → (normalizeT o).transform = some JVal.undef) ∧
    ((normalizeT o ≠ o) ↔
      (isFn o.transform = false ∧ o.transform ≠ some JVal.undef)) := by
  refine ⟨rfl, ?_, ?_, ?_⟩
  · intro h
    rw [normalizeT_transform, h]
    rfl
  · intro hne
    by_cases hf : isFn o.transform = true
    · exact absurd (normalizeT_eq_self o (Or.inr ((isFn_iff o.transform).mp hf))) hne
    · refine ⟨by simpa using hf, ?_⟩
      intro htr
      exact hne (normalizeT_eq_self o (Or.inl htr))
  · rintro ⟨hf, htr⟩ heq
    have h1 : (normalizeT o).transform = some JVal.undef := by
      rw [normalizeT_transform, hf]
      rfl
    have h2 := congrArg Obj.transform heq
    rw [h1] at h2
    exact htr h2.symm

/-- Witness for C10 amended, at an override carrying a string transform:
its `transform` slot is forced to `undefined` and the object observably
changes. -/
theorem mergeConfig_mutates_override_transform_witness :
    (mergeConfig emptyObj (.obj { emptyObj with transform := some (JVal.str "x") })
        ⟨JVal.undef, 0⟩).arg
      = .obj (normalizeT { emptyObj with transform := some (JVal.str "x") }) ∧
    (normalizeT { emptyObj with transform := some (JVal.str "x") }).transform
      = some JVal.undef ∧
    normalizeT { emptyObj with transform := some (JVal.str "x") }
      ≠ { emptyObj with transform := some (JVal.str "x") } := by
  have h := mergeConfig_mutates_override_transform emptyObj
    { emptyObj with transform := some (JVal.str "x") } ⟨JVal.undef, 0⟩
  exact ⟨h.1, h.2.1 rfl, h.2.2.mpr ⟨rfl, by decide⟩⟩

end AirtablePlus
